import Mathlib

/-!
Shallow embedding of the "insiders" backlog ranking and sponsor-attribution
engine (`src/insiders/_internal/models.py` and
`src/insiders/_internal/ops/backlog.py`), together with theorems checking the
natural-language specification against it.

Modelling conventions:
* Python `int` is `Int`; `datetime` values are represented by their integer
  timestamp (the code only ever uses `int(created.timestamp())`).
* Python `dict` (insertion ordered) is an association list; `dict` update
  keeps the position of an existing key and appends new keys at the end.
* Python `set` is a list deduplicated by the relevant `__eq__` (first
  occurrence kept, matching set construction order); sums over sets do not
  depend on iteration order.
* `list.sort(key=...)` is a stable ascending sort on key tuples.  A stable
  sort is uniquely determined by the key preorder and the input order, so it
  is modelled by insertion sort (`List.insertionSort`).
* In-place mutation (`Sponsors.merge`, `Backlog.sort`, issue updates in
  `get_backlog`) is modelled functionally: the result value is the state of
  the mutated object.
-/

/-- `Literal["github", "polar", "kofi"]` — the supported sponsorship platforms. -/
inductive SponsorshipPlatform where
  | github
  | polar
  | kofi
deriving DecidableEq, Repr, Hashable

/-- `Literal["github", "polar"]` — the supported issue platforms. -/
inductive IssuePlatform where
  | github
  | polar
deriving DecidableEq, Repr, Hashable

mutual

/-- `Account` dataclass from `models.py` (fields in source order). -/
inductive Account where
  | mk
    (name : String)
    (image : Option String)
    (url : Option String)
    (platform : SponsorshipPlatform)
    (is_org : Bool)
    (sponsorships : List Sponsorship)
    (included : Bool)
    (excluded : Bool)
    : Account

/-- `Sponsorship` dataclass from `models.py` (fields in source order;
`private` is a Lean keyword, hence `private_`). -/
inductive Sponsorship where
  | mk
    (private_ : Bool)
    (created : Int)
    (amount : Int)
    (account : Account)
    (beneficiaries : List (String × Beneficiary))
    : Sponsorship

/-- `Beneficiary` dataclass from `models.py`. -/
inductive Beneficiary where
  | mk
    (user : Account)
    (org : Option Account)
    (grant : Option Bool)
    : Beneficiary

end

def Account.name : Account → String
  | .mk n _ _ _ _ _ _ _ => n

def Account.image : Account → Option String
  | .mk _ i _ _ _ _ _ _ => i

def Account.url : Account → Option String
  | .mk _ _ u _ _ _ _ _ => u

def Account.platform : Account → SponsorshipPlatform
  | .mk _ _ _ p _ _ _ _ => p

def Account.is_org : Account → Bool
  | .mk _ _ _ _ o _ _ _ => o

def Account.sponsorships : Account → List Sponsorship
  | .mk _ _ _ _ _ s _ _ => s

def Account.included : Account → Bool
  | .mk _ _ _ _ _ _ i _ => i

def Account.excluded : Account → Bool
  | .mk _ _ _ _ _ _ _ e => e

def Sponsorship.private_ : Sponsorship → Bool
  | .mk p _ _ _ _ => p

def Sponsorship.created : Sponsorship → Int
  | .mk _ c _ _ _ => c

def Sponsorship.amount : Sponsorship → Int
  | .mk _ _ a _ _ => a

def Sponsorship.account : Sponsorship → Account
  | .mk _ _ _ a _ => a

def Sponsorship.beneficiaries : Sponsorship → List (String × Beneficiary)
  | .mk _ _ _ _ b => b

def Beneficiary.user : Beneficiary → Account
  | .mk u _ _ => u

def Beneficiary.org : Beneficiary → Option Account
  | .mk _ o _ => o

def Beneficiary.grant : Beneficiary → Option Bool
  | .mk _ _ g => g

/-- `Account.__eq__`: equality holds iff platform and name match. -/
def Account.beq (a b : Account) : Bool :=
  decide (a.platform = b.platform) && decide (a.name = b.name)

/-- `Account.__hash__`: `hash((platform, name))` — a deterministic function of
the `(platform, name)` pair. -/
def Account.hashVal (a : Account) : UInt64 :=
  hash (a.platform, a.name)

/-- `Account.is_user` property. -/
def Account.is_user (a : Account) : Bool :=
  !a.is_org

/-- `Account.highest_tier` property: `max(amounts, default=0)`. -/
def Account.highest_tier (a : Account) : Int :=
  (a.sponsorships.map Sponsorship.amount).foldl max 0

/-- `Account.tier_sum` property: `sum(amounts, start=0)`. -/
def Account.tier_sum (a : Account) : Int :=
  (a.sponsorships.map Sponsorship.amount).sum

/-- `Sponsorship.__eq__`: equality holds iff the sponsoring accounts are
equal (themselves compared by `(platform, name)`). -/
def Sponsorship.beq (s t : Sponsorship) : Bool :=
  Account.beq s.account t.account

/-- Python set construction from an ordered sequence of elements: keep the
first occurrence of each equivalence class of `eq`, in encounter order. -/
def dedupBy (eq : α → α → Bool) : List α → List α
  | [] => []
  | x :: xs => x :: (dedupBy eq xs).filter (fun y => !eq x y)

/-- `Sponsors` dataclass from `models.py`. -/
structure Sponsors where
  sponsorships : List Sponsorship

/-- `Sponsors.merge`: `self.sponsorships.extend(other.sponsorships); return self`.
The result is the state of `self` after the in-place extension. -/
def Sponsors.merge (s other : Sponsors) : Sponsors :=
  ⟨s.sponsorships ++ other.sponsorships⟩

/-- `Sponsors.accounts` property: the set of accounts who created
sponsorships (set semantics: deduplicated by `Account.__eq__`). -/
def Sponsors.accounts (s : Sponsors) : List Account :=
  dedupBy Account.beq (s.sponsorships.map Sponsorship.account)

/-- Python `dict` assignment `d[k] = v`: replace in place if the key is
present (keeping its position), append otherwise. -/
def dictSet : List (String × β) → String → β → List (String × β)
  | [], k, v => [(k, v)]
  | p :: ps, k, v => if p.1 = k then (k, v) :: ps else p :: dictSet ps k v

/-- One step of the `Sponsors.beneficiaries` accumulation loop:
`if name not in beneficiaries or beneficiary.grant: beneficiaries[name] = beneficiary`
(`grant` is `bool | None`; it is truthy exactly when it is `True`). -/
def benStep (acc : List (String × Beneficiary)) (p : String × Beneficiary) :
    List (String × Beneficiary) :=
  if (acc.lookup p.1).isNone || p.2.grant == some true then dictSet acc p.1 p.2 else acc

/-- `Sponsors.beneficiaries` property: fold the update step over all
`(name, beneficiary)` items of all sponsorships, in order. -/
def Sponsors.beneficiaries (s : Sponsors) : List (String × Beneficiary) :=
  ((s.sponsorships.map Sponsorship.beneficiaries).flatten).foldl benStep []

/-- `Issue` dataclass from `models.py` (fields in source order). -/
structure Issue where
  repository : String
  number : Int
  title : String
  created : Int
  author : Account
  upvotes : List Account
  labels : List String
  pledged : Int
  platform : IssuePlatform

/-- `Issue.interested_users` property: the set `{author, *upvotes}` (set
construction adds the author first, so when an upvoter equals the author the
author's object is the one kept). -/
def Issue.interested_users (i : Issue) : List Account :=
  dedupBy Account.beq (i.author :: i.upvotes)

/-- `Issue.sponsorships` property: the set
`{s for user in interested_users for s in user.sponsorships}`, with set
membership given by `Sponsorship.__eq__` (sponsor-account identity). -/
def Issue.sponsorships (i : Issue) : List Sponsorship :=
  dedupBy Sponsorship.beq (i.interested_users.flatMap Account.sponsorships)

/-- `Issue.funding` property: sum of amounts over the sponsorship set. -/
def Issue.funding (i : Issue) : Int :=
  (i.sponsorships.map Sponsorship.amount).sum

/-- `Backlog` dataclass from `models.py`. -/
structure Backlog where
  issues : List Issue

/-- `Backlog._Sort.__call__`: the composite key tuple
`tuple(func(issue) for func in funcs)`. -/
def Backlog.keyTuple (strats : List (Issue → Int)) (issue : Issue) : List Int :=
  strats.map (fun f => f issue)

/-- Python tuple comparison (lexicographic `<=` on integer tuples), as used
by `list.sort` on the key tuples. -/
def lexLe : List Int → List Int → Bool
  | [], _ => true
  | _ :: _, [] => false
  | a :: as, b :: bs => if a < b then true else if b < a then false else lexLe as bs

/-- The key preorder induced on issues by a strategy list. -/
def Backlog.keyLe (strats : List (Issue → Int)) (i j : Issue) : Prop :=
  lexLe (Backlog.keyTuple strats i) (Backlog.keyTuple strats j) = true

instance (strats : List (Issue → Int)) : DecidableRel (Backlog.keyLe strats) :=
  fun i j => by unfold Backlog.keyLe; infer_instance

/-- `Backlog.sort`: `self.issues.sort(key=self._Sort(*strats))`.  Python's
`list.sort` is the stable ascending sort by key tuple; a stable sort is
uniquely determined by the key preorder and the input order, so it is
modelled by insertion sort.  The result is the mutated backlog. -/
def Backlog.sort (b : Backlog) (strats : List (Issue → Int)) : Backlog :=
  ⟨List.insertionSort (Backlog.keyLe strats) b.issues⟩

/-- `Backlog.SortStrategy.min_author_sponsorships`. -/
def Backlog.SortStrategy.min_author_sponsorships (amount : Int) (reverse : Bool := true) :
    Issue → Int :=
  fun issue =>
    (if reverse then -1 else 1) *
      (if amount ≤ issue.author.tier_sum then issue.author.tier_sum else 0)

/-- `Backlog.SortStrategy.author_sponsorships`. -/
def Backlog.SortStrategy.author_sponsorships (reverse : Bool := true) : Issue → Int :=
  fun issue => (if reverse then -1 else 1) * issue.author.tier_sum

/-- `Backlog.SortStrategy.min_pledge`. -/
def Backlog.SortStrategy.min_pledge (amount : Int) (reverse : Bool := true) : Issue → Int :=
  fun issue =>
    (if reverse then -1 else 1) * (if amount ≤ issue.pledged then issue.pledged else 0)

/-- `Backlog.SortStrategy.pledge`. -/
def Backlog.SortStrategy.pledge (reverse : Bool := true) : Issue → Int :=
  fun issue => (if reverse then -1 else 1) * issue.pledged

/-- `Backlog.SortStrategy.created` (note the `reverse` default is `False`
for this strategy); the key is `int(issue.created.timestamp())`, i.e. the
integer timestamp `created` is modelled by. -/
def Backlog.SortStrategy.created (reverse : Bool := false) : Issue → Int :=
  fun issue => (if reverse then -1 else 1) * issue.created

/-- `IssueDict = dict[tuple[str, str], Issue]`: keys are string pairs. -/
abbrev IssueKey := String × String

/-- An insertion-ordered issue dictionary, as an association list. -/
abbrev IssueDict := List (IssueKey × Issue)

/-- Modelled from the spec: `Sponsors.grantees` is referenced by
`get_backlog` (`ops/backlog.py` line 83) but no definition of it appears in
the provided sources.  The spec describes the step using it as determining
"the set of known accounts that are GitHub-platform sponsors/beneficiaries"
(the platform filter being applied at the call site), so `grantees` is
modelled as the set of sponsor accounts together with all beneficiary
users. -/
def Sponsors.grantees (s : Sponsors) : List Account :=
  dedupBy Account.beq (s.accounts ++ s.beneficiaries.map (fun p => p.2.user))

/-- Line 83 of `ops/backlog.py`:
`[user for user in sponsors.grantees if user.platform == "github"] if sponsors else None`
(a `Sponsors` dataclass instance is always truthy). -/
def github_users_of (sponsors : Option Sponsors) : Option (List Account) :=
  match sponsors with
  | some s => some (s.grantees.filter (fun u => u.platform == SponsorshipPlatform.github))
  | none => none

/-- Body of the reconciliation loop in `get_backlog`: if the key is present
in the Polar map and the Polar record has truthy upvotes (nonempty set) or
truthy pledged (nonzero int), overwrite `pledged` with the Polar value. -/
def reconcileIssue (polar_issues : IssueDict) (p : IssueKey × Issue) : Issue :=
  match polar_issues.lookup p.1 with
  | some pol =>
    if !pol.upvotes.isEmpty || pol.pledged != 0 then
      { p.2 with pledged := pol.pledged }
    else p.2
  | none => p.2

/-- `get_backlog` from `ops/backlog.py`.  The issue sources are external
collaborators; they are modelled as functions of the `github_users` argument
computed on line 83 (the namespace and label arguments are threaded through
unchanged and are captured in the closures), returning either a fetched
issue dictionary or a fetch error, which propagates unchanged. -/
def get_backlog (github_get_issues : Option (List Account) → Except String IssueDict)
    (polar : Option (Option (List Account) → Except String IssueDict))
    (sponsors : Option Sponsors) : Except String Backlog :=
  match github_get_issues (github_users_of sponsors) with
  | .error e => .error e
  | .ok github_issues =>
    match polar with
    | none => .ok ⟨github_issues.map Prod.snd⟩
    | some polar_get_issues =>
      match polar_get_issues (github_users_of sponsors) with
      | .error e => .error e
      | .ok polar_issues => .ok ⟨github_issues.map (fun p => reconcileIssue polar_issues p)⟩

/-- "The configured secondary source reported fetch error `e` when called
with `users`": holds never when no secondary source is configured. -/
def sourceErrOf (polar : Option (Option (List Account) → Except String IssueDict))
    (users : Option (List Account)) (e : String) : Prop :=
  match polar with
  | none => False
  | some p => p users = .error e

/-! Concrete data used to evaluate the definitions on explicit inputs. -/

/-- A GitHub account with no sponsorships. -/
def accX : Account := .mk "x" none none .github false [] false false

/-- A bare copy of the `y` account (no back-references). -/
def accYbare : Account := .mk "y" none none .github false [] false false

/-- A GitHub account with one sponsorship of amount 200 (tier sum 200). -/
def accY : Account := .mk "y" none none .github false [.mk false 0 200 accYbare []] false false

/-- A bare copy of the `z` account (no back-references). -/
def accZbare : Account := .mk "z" none none .github false [] false false

/-- A GitHub account with one sponsorship of amount 200 (tier sum 200). -/
def accZ : Account := .mk "z" none none .github false [.mk false 0 200 accZbare []] false false

/-- Convenience constructor for a plain GitHub issue. -/
def mkIssue (n : Int) (a : Account) (t : Int) : Issue :=
  { repository := "repoA", number := n, title := "t", created := t, author := a,
    upvotes := [], labels := [], pledged := 0, platform := .github }

/-- Issue 1 of the end-to-end scenario: author tier sum 0, created t1. -/
def issueT1 : Issue := mkIssue 1 accX 100

/-- Issue 2 of the end-to-end scenario: author tier sum 200, created t2 > t1. -/
def issueT2 : Issue := mkIssue 2 accY 200

/-- Issue 3 of the end-to-end scenario: author tier sum 200, created t3 > t2. -/
def issueT3 : Issue := mkIssue 3 accZ 300

/-- An issue with `pledged = 49`. -/
def issueP49 : Issue := { mkIssue 1 accX 100 with pledged := 49 }

/-- An issue with `pledged = 50`. -/
def issueP50 : Issue := { mkIssue 1 accX 100 with pledged := 50 }

/-- The strategy list `[min_author_sponsorships(100), created]` with default
`reverse` flags. -/
def minAuthorCreatedStrats : List (Issue → Int) :=
  [Backlog.SortStrategy.min_author_sponsorships 100, Backlog.SortStrategy.created]

/-- A gate-0 issue (author tier sum 0 < 100) created later than `issueJ2`. -/
def issueJ1 : Issue := mkIssue 1 accX 20

/-- A gate-0 issue (author tier sum 0 < 100) created earlier than `issueJ1`. -/
def issueJ2 : Issue := mkIssue 2 accX 10

/-- An account `("github", "alice")` with some field values. -/
def acct6a : Account := .mk "alice" (some "img") none .github false [] true false

/-- An account `("github", "alice")` differing from `acct6a` in every other
field (image, url, org flag, sponsorships, inclusion flags). -/
def acct6b : Account := .mk "alice" none (some "url") .github true [.mk false 0 5 accX []] false true

/-- An issue authored by `accY` (tier sum 200). -/
def issue7 : Issue := mkIssue 9 accY 100

/-- An account equal to `accY` as an account — same `(platform, name)` key —
but with entirely different other fields and its own sponsorship of 999. -/
def acctY2 : Account := .mk "y" (some "pic") none .github true [.mk true 7 999 accX []] false false

/-- A one-sponsorship collection (sponsor `accX`, amount 10). -/
def sponsA : Sponsors := ⟨[.mk false 0 10 accX []]⟩

/-- A one-sponsorship collection (sponsor `accY`, amount 20). -/
def sponsB : Sponsors := ⟨[.mk false 0 20 accYbare []]⟩

/-- A one-sponsorship collection (sponsor `accZ`, amount 30). -/
def sponsC : Sponsors := ⟨[.mk false 0 30 accZbare []]⟩

/-- A beneficiary entry with an explicit grant. -/
def benA : Beneficiary := .mk accX none (some true)

/-- A voting-only beneficiary mention (no grant). -/
def benB : Beneficiary := .mk accYbare none none

/-- A sponsorship granting `alice` access. -/
def sponVote1 : Sponsorship := .mk false 0 10 accY [("alice", benA)]

/-- A sponsorship mentioning `alice` (voting only) and `bob`. -/
def sponVote2 : Sponsorship := .mk false 0 10 accZ [("alice", benB), ("bob", benB)]

/-- A sponsors collection where `alice` is granted by one sponsorship and
then mentioned voting-only by a later one. -/
def spons9 : Sponsors := ⟨[sponVote1, sponVote2]⟩

/-- A primary source that always fails with error `"boom"`. -/
def fgBoom : Option (List Account) → Except String IssueDict :=
  fun _ => .error "boom"

/-- A primary-source issue with no pledge. -/
def giIss : Issue := mkIssue 1 accX 5

/-- A secondary-source issue for the same key with `pledged = 50` and no
upvotes. -/
def polIss : Issue := { mkIssue 1 accX 5 with pledged := 50 }

/-- A primary issue map with the single key `("a", "1")`. -/
def gmapW : IssueDict := [(("a", "1"), giIss)]

/-- A secondary issue map with key `("a", "1")` and a secondary-only key
`("a", "2")`. -/
def pmapW : IssueDict := [(("a", "1"), polIss), (("a", "2"), polIss)]

/-- The backlog produced by `get_backlog` on `gmapW`/`pmapW`. -/
def backlogW : Backlog := ⟨[{ giIss with pledged := 50 }]⟩

/-! Helper lemmas about the tuple order. -/

theorem lexLe_refl (as : List Int) : lexLe as as = true := by
  induction as with
  | nil => rfl
  | cons a as ih => simp [lexLe, lt_irrefl, ih]

theorem lexLe_total (as bs : List Int) : lexLe as bs = true ∨ lexLe bs as = true := by
  induction as generalizing bs with
  | nil => left; rfl
  | cons a as ih =>
    cases bs with
    | nil => right; rfl
    | cons b bs =>
      rcases lt_trichotomy a b with h | h | h
      · left; simp [lexLe, h]
      · subst h
        rcases ih bs with h2 | h2
        · left; simp [lexLe, lt_irrefl, h2]
        · right; simp [lexLe, lt_irrefl, h2]
      · right; simp [lexLe, h]

theorem lexLe_trans (as bs cs : List Int) (h1 : lexLe as bs = true)
    (h2 : lexLe bs cs = true) : lexLe as cs = true := by
  induction as generalizing bs cs with
  | nil => rfl
  | cons a as ih =>
    cases bs with
    | nil => simp [lexLe] at h1
    | cons b bs =>
      cases cs with
      | nil => simp [lexLe] at h2
      | cons c cs =>
        simp only [lexLe] at h1 h2 ⊢
        by_cases hab : a < b
        · by_cases hbc : b < c
          · simp [show a < c from lt_trans hab hbc]
          · by_cases hcb : c < b
            · simp [hbc, hcb] at h2
            · simp [show a < c by omega]
        · by_cases hba : b < a
          · simp [hab, hba] at h1
          · simp only [hab, hba, if_false] at h1
            by_cases hbc : b < c
            · simp [show a < c by omega]
            · by_cases hcb : c < b
              · simp [hbc, hcb] at h2
              · simp only [hbc, hcb, if_false] at h2
                simp [show ¬ a < c by omega, show ¬ c < a by omega, ih bs cs h1 h2]

theorem keyLe_nil_true (i j : Issue) : Backlog.keyLe [] i j := rfl

theorem insertionSort_keyLe_nil (l : List Issue) :
    List.insertionSort (Backlog.keyLe []) l = l := by
  induction l with
  | nil => rfl
  | cons x xs ih =>
    rw [List.insertionSort, ih]
    cases xs with
    | nil => rfl
    | cons y ys => rw [List.orderedInsert, if_pos (keyLe_nil_true x y)]

/-- C10: calling `Backlog.sort` with zero strategies leaves the issues list
unchanged: every issue is keyed to the empty tuple and the underlying stable
sort keeps the original order. -/
theorem backlog_sort_no_strategies (b : Backlog) : Backlog.sort b [] = b := by
  unfold Backlog.sort
  rw [insertionSort_keyLe_nil]

/-- C4: the three-issue scenario — issue 1 (author tier sum 0, created t1),
issue 2 (author tier sum 200, created t2 > t1), issue 3 (author tier sum
200, created t3 > t2) — sorted by `[author_sponsorships, created]` with
default reverse flags yields the order `[2, 3, 1]`. -/
theorem backlog_sort_scenario :
    (Backlog.sort ⟨[issueT1, issueT2, issueT3]⟩
        [Backlog.SortStrategy.author_sponsorships, Backlog.SortStrategy.created]).issues.map
      Issue.number = [2, 3, 1] := by decide

/-- C2 counterexample: with default parameters (`reverse = true`, factor
−1), `min_pledge(50)` applied to an issue with `pledged = 50` yields key
−50, not 50 as the claim states. -/
theorem min_pledge_default_cex :
    (Backlog.SortStrategy.min_pledge 50 : Issue → Int) issueP50 = -50 ∧
    ¬((Backlog.SortStrategy.min_pledge 50 : Issue → Int) issueP50 = 50) := by decide

/-- C2 amended: with default parameters `min_pledge(50)` yields key 0 at
`pledged = 49` and key −50 at `pledged = 50` (the gate boundary is
inclusive and the key magnitude is the pledged value; with `reverse =
false` the key at `pledged = 50` is 50). -/
theorem min_pledge_gate_boundary (i : Issue) :
    (i.pledged = 49 → (Backlog.SortStrategy.min_pledge 50 : Issue → Int) i = 0) ∧
    (i.pledged = 50 →
      (Backlog.SortStrategy.min_pledge 50 : Issue → Int) i = -50 ∧
      Backlog.SortStrategy.min_pledge 50 false i = 50) := by
  refine ⟨fun h => ?_, fun h => ⟨?_, ?_⟩⟩ <;>
    simp [Backlog.SortStrategy.min_pledge, h]

/-- Witness for C2 amended at the concrete issues. -/
theorem min_pledge_gate_boundary_witness :
    (Backlog.SortStrategy.min_pledge 50 : Issue → Int) issueP49 = 0 ∧
    ((Backlog.SortStrategy.min_pledge 50 : Issue → Int) issueP50 = -50 ∧
      Backlog.SortStrategy.min_pledge 50 false issueP50 = 50) :=
  ⟨(min_pledge_gate_boundary issueP49).1 rfl, (min_pledge_gate_boundary issueP50).2 rfl⟩

/-- C6: `Account` equality holds iff the `(platform, name)` pairs agree —
regardless of every other field — and equal accounts have equal hash
values. -/
theorem account_identity (a b : Account) :
    (Account.beq a b = true ↔ a.platform = b.platform ∧ a.name = b.name) ∧
    (Account.beq a b = true → Account.hashVal a = Account.hashVal b) := by
  constructor
  · simp [Account.beq]
  · intro h
    have h2 : a.platform = b.platform ∧ a.name = b.name := by simpa [Account.beq] using h
    unfold Account.hashVal
    rw [h2.1, h2.2]

/-- Witness for C6: `acct6a` and `acct6b` differ in image, url, org flag,
sponsorships and inclusion flags, yet are equal with equal hashes. -/
theorem account_identity_witness :
    Account.beq acct6a acct6b = true ∧ Account.hashVal acct6a = Account.hashVal acct6b :=
  ⟨(account_identity acct6a acct6b).1.mpr ⟨rfl, rfl⟩,
   (account_identity acct6a acct6b).2 ((account_identity acct6a acct6b).1.mpr ⟨rfl, rfl⟩)⟩

/-- C1: when a sponsors collection is supplied, `get_backlog` first computes
the GitHub-platform accounts among the collection's sponsor/beneficiary
accounts (`grantees`) and hands exactly that list to the primary issue
source (both sources receive it), and the only errors `get_backlog` can
produce are fetch errors propagated unchanged from one of the sources. -/
theorem get_backlog_sponsors_safety
    (fg : Option (List Account) → Except String IssueDict)
    (polar : Option (Option (List Account) → Except String IssueDict))
    (s : Sponsors) (e : String) :
    github_users_of (some s)
        = some (s.grantees.filter (fun u => u.platform == SponsorshipPlatform.github)) ∧
    (get_backlog fg polar (some s) = .error e →
      fg (github_users_of (some s)) = .error e ∨
        sourceErrOf polar (github_users_of (some s)) e) := by
  refine ⟨rfl, fun h => ?_⟩
  unfold get_backlog at h
  cases hfg : fg (github_users_of (some s)) with
  | error e2 =>
    rw [hfg] at h
    left
    injection h with h2
    rw [h2]
  | ok g =>
    rw [hfg] at h
    cases polar with
    | none => exact Except.noConfusion h
    | some p =>
      have h2 : (match p (github_users_of (some s)) with
        | Except.error err => (Except.error err : Except String Backlog)
        | Except.ok polar_issues =>
          Except.ok ⟨g.map (fun q => reconcileIssue polar_issues q)⟩) = Except.error e := h
      cases hp : p (github_users_of (some s)) with
      | error e2 =>
        rw [hp] at h2
        right
        show p (github_users_of (some s)) = Except.error e
        rw [hp]
        injection h2 with h3
        rw [h3]
      | ok pis =>
        rw [hp] at h2
        exact Except.noConfusion h2

/-- Witness for C1 with a failing primary source. -/
theorem get_backlog_sponsors_safety_witness :
    fgBoom (github_users_of (some spons9)) = .error "boom" ∨
      sourceErrOf none (github_users_of (some spons9)) "boom" :=
  (get_backlog_sponsors_safety fgBoom none spons9 "boom").2 rfl

theorem lookup_mem {α β : Type} [BEq α] [LawfulBEq α] :
    ∀ (l : List (α × β)) (k : α) (v : β), l.lookup k = some v → (k, v) ∈ l
  | [], _, _, h => by simp [List.lookup] at h
  | (a, c) :: l, k, v, h => by
    rw [List.lookup] at h
    cases hke : k == a with
    | true =>
      rw [hke] at h
      injection h with h2
      have hka : k = a := eq_of_beq hke
      rw [hka, h2]
      exact List.mem_cons_self _ _
    | false =>
      rw [hke] at h
      exact List.mem_cons_of_mem _ (lookup_mem l k v h)

theorem reconcileIssue_update (pmap : IssueDict) (k : IssueKey) (gi pol : Issue)
    (hp : pmap.lookup k = some pol) (htrig : pol.upvotes ≠ [] ∨ pol.pledged ≠ 0) :
    reconcileIssue pmap (k, gi) = { gi with pledged := pol.pledged } := by
  have hcond : (!pol.upvotes.isEmpty || pol.pledged != 0) = true := by
    rcases htrig with h | h <;>
      simp [List.isEmpty_iff, bne_iff_ne, h]
  unfold reconcileIssue
  rw [show List.lookup (k, gi).1 pmap = some pol from hp]
  simp [hcond]

/-- C3: with a secondary source configured, for every key present in both
maps whose secondary record has nonzero upvotes or nonzero pledged, the
primary record appears in the result with its `pledged` field set to the
secondary value; the result has exactly one issue per primary entry, in the
primary source's original order (so secondary-only keys contribute
nothing). -/
theorem get_backlog_reconciliation
    (gmap pmap : IssueDict) (sp : Option Sponsors) (b : Backlog)
    (j : Nat) (k : IssueKey) (gi pol : Issue)
    (hb : get_backlog (fun _ => .ok gmap) (some (fun _ => .ok pmap)) sp = .ok b)
    (hg : gmap.lookup k = some gi) (hp : pmap.lookup k = some pol)
    (htrig : pol.upvotes ≠ [] ∨ pol.pledged ≠ 0) :
    { gi with pledged := pol.pledged } ∈ b.issues ∧
    b.issues.length = gmap.length ∧
    b.issues[j]? = (gmap[j]?).map (fun p => reconcileIssue pmap p) := by
  have hb2 : (⟨gmap.map (fun p => reconcileIssue pmap p)⟩ : Backlog) = b := Except.ok.inj hb
  subst hb2
  refine ⟨?_, by simp, by simp⟩
  rw [← reconcileIssue_update pmap k gi pol hp htrig]
  exact List.mem_map_of_mem _ (lookup_mem gmap k gi hg)

/-- Witness for C3: a secondary record with `pledged = 50` and empty upvotes
still updates the primary record, and the secondary-only key `("a", "2")`
adds nothing. -/
theorem get_backlog_reconciliation_witness :
    { giIss with pledged := polIss.pledged } ∈ backlogW.issues ∧
    backlogW.issues.length = gmapW.length ∧
    backlogW.issues[0]? = (gmapW[0]?).map (fun p => reconcileIssue pmapW p) :=
  get_backlog_reconciliation gmapW pmapW none backlogW 0 ("a", "1") giIss polIss rfl rfl rfl
    (Or.inr (by decide))

theorem Account.beq_symm (a b : Account) : Account.beq a b = Account.beq b a := by
  simp only [Account.beq]
  rw [show decide (a.platform = b.platform) = decide (b.platform = a.platform) from
        decide_eq_decide.mpr eq_comm,
      show decide (a.name = b.name) = decide (b.name = a.name) from
        decide_eq_decide.mpr eq_comm]

theorem dedupBy_append_not_mem (eq : α → α → Bool) (u : α) :
    ∀ (l : List α), l.all (fun y => !eq y u) = true →
      dedupBy eq (l ++ [u]) = dedupBy eq l ++ [u]
  | [], _ => rfl
  | x :: l, h => by
    have hx : (!eq x u) = true := (List.all_eq_true.mp h) x (List.mem_cons_self x l)
    have hl : l.all (fun y => !eq y u) = true :=
      List.all_eq_true.mpr fun y hy => (List.all_eq_true.mp h) y (List.mem_cons_of_mem _ hy)
    show x :: (dedupBy eq (l ++ [u])).filter (fun y => !eq x y)
        = (x :: (dedupBy eq l).filter (fun y => !eq x y)) ++ [u]
    rw [dedupBy_append_not_mem eq u l hl, List.filter_append]
    simp [hx]

theorem dedupBy_append_mem (eq : α → α → Bool) (u : α) :
    ∀ (l : List α), l.any (fun y => eq y u) = true →
      dedupBy eq (l ++ [u]) = dedupBy eq l
  | [], h => by simp at h
  | x :: l, h => by
    show x :: (dedupBy eq (l ++ [u])).filter (fun y => !eq x y)
        = x :: (dedupBy eq l).filter (fun y => !eq x y)
    by_cases hany : l.any (fun y => eq y u) = true
    · rw [dedupBy_append_mem eq u l hany]
    · have hxu : eq x u = true := by
        rcases List.any_eq_true.mp h with ⟨y, hy, hyu⟩
        rcases List.mem_cons.mp hy with rfl | hy2
        · exact hyu
        · exact absurd (List.any_eq_true.mpr ⟨y, hy2, hyu⟩) hany
      have hall : l.all (fun y => !eq y u) = true := by
        rw [List.all_eq_true]
        intro y hy
        by_contra hne
        exact hany (List.any_eq_true.mpr ⟨y, hy, by revert hne; cases eq y u <;> simp⟩)
      rw [dedupBy_append_not_mem eq u l hall, List.filter_append]
      simp [hxu]

theorem issue_interested_append_author (i : Issue) (u : Account)
    (h : Account.beq u i.author = true) :
    Issue.interested_users { i with upvotes := i.upvotes ++ [u] }
      = Issue.interested_users i := by
  unfold Issue.interested_users
  show dedupBy Account.beq ((i.author :: i.upvotes) ++ [u])
      = dedupBy Account.beq (i.author :: i.upvotes)
  apply dedupBy_append_mem
  rw [List.any_eq_true]
  exact ⟨i.author, List.mem_cons_self _ _, by rw [Account.beq_symm]; exact h⟩

/-- C7: an issue's funding is the sum of amounts over its deduplicated
sponsorship set, and adding an upvoter equal (as an account) to the author
never changes the funding — the shared sponsor is counted exactly once. -/
theorem issue_funding_dedup (i : Issue) (u : Account)
    (h : Account.beq u i.author = true) :
    Issue.funding { i with upvotes := i.upvotes ++ [u] } = Issue.funding i ∧
    Issue.funding i = ((Issue.sponsorships i).map Sponsorship.amount).sum := by
  refine ⟨?_, rfl⟩
  unfold Issue.funding Issue.sponsorships
  rw [issue_interested_append_author i u h]

/-- Witness for C7: `acctY2` has the same `(platform, name)` key as the
author of `issue7` (with different other fields), and upvoting by it leaves
the funding unchanged. -/
theorem issue_funding_dedup_witness :
    Issue.funding { issue7 with upvotes := issue7.upvotes ++ [acctY2] }
        = Issue.funding issue7 ∧
    Issue.funding issue7 = ((Issue.sponsorships issue7).map Sponsorship.amount).sum :=
  issue_funding_dedup issue7 acctY2 (by decide)

theorem Account.beq_trans (a b c : Account) (h1 : Account.beq a b = true)
    (h2 : Account.beq b c = true) : Account.beq a c = true := by
  simp only [Account.beq, Bool.and_eq_true, decide_eq_true_eq] at h1 h2 ⊢
  exact ⟨h1.1.trans h2.1, h1.2.trans h2.2⟩

theorem any_filter_of_ne (eq : α → α → Bool)
    (hsymm : ∀ x y, eq x y = eq y x)
    (htrans : ∀ x y z, eq x y = true → eq y z = true → eq x z = true)
    (a x : α) (hax : eq a x = false) :
    ∀ t : List α, (t.filter (fun y => !eq x y)).any (fun y => eq a y)
      = t.any (fun y => eq a y)
  | [] => rfl
  | z :: t => by
    by_cases hxz : eq x z = true
    · have haz : eq a z = false := by
        by_contra hne
        have haz2 : eq a z = true := by revert hne; cases eq a z <;> simp
        have hzx : eq z x = true := by rw [hsymm]; exact hxz
        exact absurd (htrans a z x haz2 hzx) (by simp [hax])
      simp [List.filter_cons, hxz, haz, any_filter_of_ne eq hsymm htrans a x hax t]
    · have hxz2 : (!eq x z) = true := by revert hxz; cases eq x z <;> simp
      simp [List.filter_cons, hxz2, any_filter_of_ne eq hsymm htrans a x hax t]

theorem any_dedupBy (eq : α → α → Bool)
    (hsymm : ∀ x y, eq x y = eq y x)
    (htrans : ∀ x y z, eq x y = true → eq y z = true → eq x z = true) (a : α) :
    ∀ l : List α, (dedupBy eq l).any (fun y => eq a y) = l.any (fun y => eq a y)
  | [] => rfl
  | x :: l => by
    rw [show dedupBy eq (x :: l) = x :: (dedupBy eq l).filter (fun y => !eq x y) from rfl,
      List.any_cons, List.any_cons]
    by_cases hax : eq a x = true
    · simp [hax]
    · have hax2 : eq a x = false := by revert hax; cases eq a x <;> simp
      rw [hax2, Bool.false_or, Bool.false_or,
        any_filter_of_ne eq hsymm htrans a x hax2 (dedupBy eq l),
        any_dedupBy eq hsymm htrans a l]

theorem any_map_general {γ δ : Type} (f : γ → δ) (p : δ → Bool) :
    ∀ l : List γ, (l.map f).any p = l.any (fun x => p (f x))
  | [] => rfl
  | x :: l => by
    rw [List.map_cons, List.any_cons, List.any_cons, any_map_general f p l]

theorem sponsors_accounts_any (s : Sponsors) (a : Account) :
    (Sponsors.accounts s).any (fun b => Account.beq a b)
      = s.sponsorships.any (fun t => Account.beq a t.account) := by
  unfold Sponsors.accounts
  rw [any_dedupBy Account.beq Account.beq_symm Account.beq_trans a,
    any_map_general Sponsorship.account (fun y => Account.beq a y)]

theorem foldl_merge_sponsorships (e : Sponsors) :
    ∀ L : List Sponsors, (L.foldl Sponsors.merge e).sponsorships
      = e.sponsorships ++ (L.map Sponsors.sponsorships).flatten
  | [] => by simp
  | s :: L => by
    show (L.foldl Sponsors.merge (e.merge s)).sponsorships = _
    rw [foldl_merge_sponsorships (e.merge s) L]
    show (e.sponsorships ++ s.sponsorships) ++ _ = _
    rw [List.append_assoc]
    rfl

theorem perm_any_eq {γ : Type} {l1 l2 : List γ} (h : l1.Perm l2) (f : γ → Bool) :
    l1.any f = l2.any f := by
  rw [Bool.eq_iff_iff, List.any_eq_true, List.any_eq_true]
  exact ⟨fun ⟨x, hx, hf⟩ => ⟨x, h.mem_iff.mp hx, hf⟩,
    fun ⟨x, hx, hf⟩ => ⟨x, h.mem_iff.mpr hx, hf⟩⟩

/-- C8: `merge` appends the other collection's sponsorship records with no
deduplication and is associative, and membership in the `accounts` set of a
merged collection does not depend on the order the merges are performed
in. -/
theorem sponsors_merge_semantics (s o p : Sponsors) (a : Account)
    (L1 L2 : List Sponsors) (hperm : L1.Perm L2) :
    (Sponsors.merge s o).sponsorships = s.sponsorships ++ o.sponsorships ∧
    Sponsors.merge (Sponsors.merge s o) p = Sponsors.merge s (Sponsors.merge o p) ∧
    (Sponsors.accounts (Sponsors.merge s o)).any (fun b => Account.beq a b)
      = ((Sponsors.accounts s).any (fun b => Account.beq a b)
          || (Sponsors.accounts o).any (fun b => Account.beq a b)) ∧
    (Sponsors.accounts (L1.foldl Sponsors.merge ⟨[]⟩)).any (fun b => Account.beq a b)
      = (Sponsors.accounts (L2.foldl Sponsors.merge ⟨[]⟩)).any (fun b => Account.beq a b) := by
  refine ⟨rfl, ?_, ?_, ?_⟩
  · show (⟨(s.sponsorships ++ o.sponsorships) ++ p.sponsorships⟩ : Sponsors)
        = ⟨s.sponsorships ++ (o.sponsorships ++ p.sponsorships)⟩
    rw [List.append_assoc]
  · rw [sponsors_accounts_any, sponsors_accounts_any, sponsors_accounts_any]
    show (s.sponsorships ++ o.sponsorships).any _ = _
    rw [List.any_append]
  · rw [sponsors_accounts_any, sponsors_accounts_any,
      foldl_merge_sponsorships ⟨[]⟩ L1, foldl_merge_sponsorships ⟨[]⟩ L2]
    show ((List.map Sponsors.sponsorships L1).flatten).any _
        = ((List.map Sponsors.sponsorships L2).flatten).any _
    rw [List.any_flatten, List.any_flatten,
      any_map_general Sponsors.sponsorships, any_map_general Sponsors.sponsorships]
    exact perm_any_eq hperm _

/-- Witness for C8 on a concrete two-element collection merged in both
orders. -/
theorem sponsors_merge_semantics_witness :
    (Sponsors.accounts ([sponsA, sponsB].foldl Sponsors.merge ⟨[]⟩)).any
        (fun b => Account.beq accX b)
      = (Sponsors.accounts ([sponsB, sponsA].foldl Sponsors.merge ⟨[]⟩)).any
        (fun b => Account.beq accX b) :=
  (sponsors_merge_semantics sponsA sponsB sponsC accX [sponsA, sponsB] [sponsB, sponsA]
    (List.Perm.swap sponsB sponsA [])).2.2.2

theorem dictSet_lookup_self {β : Type} (k : String) (v : β) :
    ∀ d : List (String × β), (dictSet d k v).lookup k = some v
  | [] => by simp [dictSet, List.lookup]
  | (a, b) :: ps => by
    by_cases h : a = k
    · simp [dictSet, h, List.lookup]
    · rw [show dictSet ((a, b) :: ps) k v = (a, b) :: dictSet ps k v from by simp [dictSet, h]]
      rw [List.lookup, show (k == a) = false from beq_eq_false_iff_ne.mpr fun hh => h hh.symm]
      exact dictSet_lookup_self k v ps

theorem dictSet_lookup_other {β : Type} (k q : String) (hq : q ≠ k) (v : β) :
    ∀ d : List (String × β), (dictSet d k v).lookup q = d.lookup q
  | [] => by
    simp [dictSet, List.lookup, show (q == k) = false from beq_eq_false_iff_ne.mpr hq]
  | (a, b) :: ps => by
    by_cases h : a = k
    · rw [show dictSet ((a, b) :: ps) k v = (k, v) :: ps from by simp [dictSet, h]]
      rw [List.lookup, List.lookup,
        show (q == k) = false from beq_eq_false_iff_ne.mpr hq,
        show (q == a) = false from beq_eq_false_iff_ne.mpr fun hh => hq (hh.trans h)]
    · rw [show dictSet ((a, b) :: ps) k v = (a, b) :: dictSet ps k v from by simp [dictSet, h]]
      rw [List.lookup, List.lookup]
      cases hqa : (q == a) with
      | true => rfl
      | false => exact dictSet_lookup_other k q hq v ps

theorem benStep_lookup_isSome (acc : List (String × Beneficiary))
    (p : String × Beneficiary) (k : String) :
    ((benStep acc p).lookup k).isSome = ((acc.lookup k).isSome || (p.1 == k)) := by
  unfold benStep
  by_cases hc : ((acc.lookup p.1).isNone || (p.2.grant == some true)) = true
  · rw [if_pos hc]
    by_cases hpk : p.1 = k
    · subst hpk
      rw [dictSet_lookup_self]
      simp
    · rw [dictSet_lookup_other p.1 k (fun hh => hpk hh.symm) p.2 acc,
        show (p.1 == k) = false from beq_eq_false_iff_ne.mpr hpk]
      simp
  · rw [if_neg hc]
    by_cases hpk : p.1 = k
    · subst hpk
      cases hl : acc.lookup p.1 with
      | none => rw [hl] at hc; simp at hc
      | some b => simp
    · rw [show (p.1 == k) = false from beq_eq_false_iff_ne.mpr hpk]
      simp

theorem benFold_lookup_isSome (k : String) :
    ∀ (occs acc : List (String × Beneficiary)),
      ((occs.foldl benStep acc).lookup k).isSome
        = ((acc.lookup k).isSome || occs.any (fun p => p.1 == k))
  | [], acc => by simp
  | p :: occs, acc => by
    rw [show (p :: occs).foldl benStep acc = occs.foldl benStep (benStep acc p) from rfl,
      benFold_lookup_isSome k occs (benStep acc p),
      benStep_lookup_isSome acc p k, List.any_cons, Bool.or_assoc]

theorem benFold_grant (k : String) :
    ∀ (occs acc : List (String × Beneficiary)),
      (occs.any (fun p => p.1 == k && (p.2.grant == some true)) = true ∨
        ((acc.lookup k).map Beneficiary.grant = some (some true))) →
      ((occs.foldl benStep acc).lookup k).map Beneficiary.grant = some (some true)
  | [], acc, h => by
    rcases h with h | h
    · simp at h
    · simpa using h
  | p :: occs, acc, h => by
    rw [show (p :: occs).foldl benStep acc = occs.foldl benStep (benStep acc p) from rfl]
    apply benFold_grant k occs (benStep acc p)
    rcases h with h | h
    · rw [List.any_cons, Bool.or_eq_true] at h
      rcases h with hp | hrest
      · right
        rw [Bool.and_eq_true] at hp
        obtain ⟨hpk, hpg⟩ := hp
        have hpk2 : p.1 = k := eq_of_beq hpk
        have hcond : ((acc.lookup p.1).isNone || (p.2.grant == some true)) = true := by
          rw [hpg, Bool.or_true]
        unfold benStep
        rw [if_pos hcond, ← hpk2, dictSet_lookup_self]
        simp [eq_of_beq hpg]
      · left; exact hrest
    · right
      unfold benStep
      by_cases hc : ((acc.lookup p.1).isNone || (p.2.grant == some true)) = true
      · rw [if_pos hc]
        by_cases hpk : p.1 = k
        · subst hpk
          cases hl : acc.lookup p.1 with
          | none => rw [hl] at h; simp at h
          | some b =>
            rw [hl] at hc
            simp only [Option.isNone_some, Bool.false_or] at hc
            rw [dictSet_lookup_self]
            simp [eq_of_beq hc]
        · rw [dictSet_lookup_other p.1 k (fun hh => hpk hh.symm) p.2 acc]
          exact h
      · rw [if_neg hc]
        exact h

/-- C9: the derived beneficiaries map contains exactly the beneficiary keys
occurring in some sponsorship's beneficiary map, and whenever at least one
occurrence of a key carries `grant = true`, the entry retained for that key
has `grant = true` — a grant is never displaced by a voting-only mention. -/
theorem sponsors_beneficiaries_grants (s : Sponsors) (k : String) :
    ((Sponsors.beneficiaries s).lookup k).isSome
        = ((s.sponsorships.map Sponsorship.beneficiaries).flatten).any (fun p => p.1 == k) ∧
    (((s.sponsorships.map Sponsorship.beneficiaries).flatten).any
          (fun p => p.1 == k && (p.2.grant == some true)) = true →
      ((Sponsors.beneficiaries s).lookup k).map Beneficiary.grant = some (some true)) := by
  constructor
  · unfold Sponsors.beneficiaries
    rw [benFold_lookup_isSome k _ []]
    simp [List.lookup]
  · intro h
    unfold Sponsors.beneficiaries
    exact benFold_grant k _ [] (Or.inl h)

/-- Witness for C9: `alice` is granted by `sponVote1` and mentioned
voting-only by the later `sponVote2`, yet the retained entry keeps
`grant = true`. -/
theorem sponsors_beneficiaries_grants_witness :
    ((Sponsors.beneficiaries spons9).lookup "alice").map Beneficiary.grant
      = some (some true) :=
  (sponsors_beneficiaries_grants spons9 "alice").2 (by decide)

theorem filter_orderedInsert {α : Type} {r : α → α → Prop} [DecidableRel r]
    (q : α → Bool) (a : α) (hcond : q a = true → ∀ b, q b = true → r a b) :
    ∀ l : List α, (List.orderedInsert r a l).filter q
      = if q a then a :: l.filter q else l.filter q
  | [] => by cases hqa : q a <;> simp [List.orderedInsert, List.filter_cons, hqa]
  | b :: l => by
    by_cases hab : r a b
    · show (if r a b then a :: b :: l else b :: List.orderedInsert r a l).filter q = _
      rw [if_pos hab]
      cases hqa : q a <;> simp [List.filter_cons, hqa]
    · show (if r a b then a :: b :: l else b :: List.orderedInsert r a l).filter q = _
      rw [if_neg hab, List.filter_cons, filter_orderedInsert q a hcond l]
      by_cases hqa : q a = true
      · have hqb : q b = false := by
          by_contra hbb
          have hqb2 : q b = true := by revert hbb; cases q b <;> simp
          exact hab (hcond hqa b hqb2)
        simp [hqa, hqb, List.filter_cons]
      · have hqa2 : q a = false := by revert hqa; cases q a <;> simp
        cases hqb : q b <;> simp [hqa2, hqb, List.filter_cons]

theorem insertionSort_filter_key (strats : List (Issue → Int)) (k : List Int) :
    ∀ l : List Issue,
      (List.insertionSort (Backlog.keyLe strats) l).filter
          (fun i => Backlog.keyTuple strats i == k)
        = l.filter (fun i => Backlog.keyTuple strats i == k)
  | [] => rfl
  | x :: l => by
    have hcond : (Backlog.keyTuple strats x == k) = true →
        ∀ b : Issue, (Backlog.keyTuple strats b == k) = true → Backlog.keyLe strats x b := by
      intro hx b hb
      unfold Backlog.keyLe
      rw [eq_of_beq hx, eq_of_beq hb]
      exact lexLe_refl k
    show (List.orderedInsert (Backlog.keyLe strats) x
        (List.insertionSort (Backlog.keyLe strats) l)).filter _ = _
    rw [filter_orderedInsert (fun i => Backlog.keyTuple strats i == k) x hcond
        (List.insertionSort (Backlog.keyLe strats) l),
      insertionSort_filter_key strats k l]
    cases hqx : (Backlog.keyTuple strats x == k) <;> simp [List.filter_cons, hqx]

theorem pairwise_filter_decomposition {α : Type} {r : α → α → Prop} (q : α → Bool)
    (hmono : ∀ a b, r a b → q b = true → q a = true) :
    ∀ l : List α, l.Pairwise r → l = l.filter q ++ l.filter (fun x => !q x)
  | [], _ => rfl
  | x :: l, hp => by
    rw [List.pairwise_cons] at hp
    obtain ⟨hx, hl⟩ := hp
    have IH := pairwise_filter_decomposition q hmono l hl
    by_cases hqx : q x = true
    · rw [List.filter_cons, List.filter_cons]
      simp only [hqx, Bool.not_true, if_true, if_false]
      rw [List.cons_append]
      exact congrArg _ IH
    · have hqx2 : q x = false := by revert hqx; cases q x <;> simp
      have hall : ∀ y ∈ l, q y = false := by
        intro y hy
        by_contra hne
        have hqy : q y = true := by revert hne; cases q y <;> simp
        have := hmono x y (hx y hy) hqy
        rw [hqx2] at this
        exact Bool.noConfusion this
      have hfq : l.filter q = [] :=
        List.filter_eq_nil_iff.mpr fun y hy => by simp [hall y hy]
      have hfnq : l.filter (fun y => !q y) = l :=
        List.filter_eq_self.mpr fun y hy => by rw [hall y hy]; rfl
      rw [List.filter_cons, List.filter_cons]
      simp [hqx2, hfq, hfnq]

theorem minAuthor_keyLe_mono (a b : Issue)
    (h : Backlog.keyLe minAuthorCreatedStrats a b)
    (hb : decide (100 ≤ b.author.tier_sum) = true) :
    decide (100 ≤ a.author.tier_sum) = true := by
  rw [decide_eq_true_eq] at hb ⊢
  by_contra ha
  have hka : Backlog.SortStrategy.min_author_sponsorships 100 true a = 0 := by
    unfold Backlog.SortStrategy.min_author_sponsorships
    rw [if_neg ha]
    simp
  have hkb : Backlog.SortStrategy.min_author_sponsorships 100 true b
      = -b.author.tier_sum := by
    unfold Backlog.SortStrategy.min_author_sponsorships
    rw [if_pos hb]
    simp
  have h2 : lexLe
      [Backlog.SortStrategy.min_author_sponsorships 100 true a,
        Backlog.SortStrategy.created false a]
      [Backlog.SortStrategy.min_author_sponsorships 100 true b,
        Backlog.SortStrategy.created false b] = true := h
  rw [hka, hkb] at h2
  rw [show lexLe [0, Backlog.SortStrategy.created false a]
        [-b.author.tier_sum, Backlog.SortStrategy.created false b]
      = (if (0 : Int) < -b.author.tier_sum then true
          else if -b.author.tier_sum < (0 : Int) then false
          else lexLe [Backlog.SortStrategy.created false a]
            [Backlog.SortStrategy.created false b]) from rfl] at h2
  rw [if_neg (by omega), if_pos (by omega)] at h2
  exact Bool.noConfusion h2

/-- C5 counterexample: `issueJ1` and `issueJ2` both gate to key 0 under
`min_author_sponsorships(100)` (author tier sum 0), yet sorting by
`[min_author_sponsorships(100), created]` reorders them by creation time —
ties at the gate value alone do not keep the original relative order. -/
theorem sort_min_author_cex :
    Backlog.SortStrategy.min_author_sponsorships 100 true issueJ1 = 0 ∧
    Backlog.SortStrategy.min_author_sponsorships 100 true issueJ2 = 0 ∧
    (Backlog.sort ⟨[issueJ1, issueJ2]⟩ minAuthorCreatedStrats).issues.map Issue.number
      = [2, 1] := by decide

/-- C5 amended: sorting by `[min_author_sponsorships(100), created]` with
default reverse flags is a permutation that places every issue with author
tier sum ≥ 100 before every other issue, and issues tying on the complete
key tuple (gate value and creation timestamp) keep their original relative
order (the sort is stable). -/
theorem sort_min_author_partition (l : List Issue) (k : List Int) :
    ((Backlog.sort ⟨l⟩ minAuthorCreatedStrats).issues).Perm l ∧
    (Backlog.sort ⟨l⟩ minAuthorCreatedStrats).issues
      = ((Backlog.sort ⟨l⟩ minAuthorCreatedStrats).issues).filter
          (fun i => decide (100 ≤ i.author.tier_sum))
        ++ ((Backlog.sort ⟨l⟩ minAuthorCreatedStrats).issues).filter
          (fun i => !decide (100 ≤ i.author.tier_sum)) ∧
    ((Backlog.sort ⟨l⟩ minAuthorCreatedStrats).issues).filter
        (fun i => Backlog.keyTuple minAuthorCreatedStrats i == k)
      = l.filter (fun i => Backlog.keyTuple minAuthorCreatedStrats i == k) := by
  refine ⟨List.perm_insertionSort _ l, ?_, insertionSort_filter_key minAuthorCreatedStrats k l⟩
  haveI : IsTotal Issue (Backlog.keyLe minAuthorCreatedStrats) :=
    ⟨fun x y => lexLe_total _ _⟩
  haveI : IsTrans Issue (Backlog.keyLe minAuthorCreatedStrats) :=
    ⟨fun x y z => lexLe_trans _ _ _⟩
  have hs : ((Backlog.sort ⟨l⟩ minAuthorCreatedStrats).issues).Pairwise
      (Backlog.keyLe minAuthorCreatedStrats) :=
    List.sorted_insertionSort _ l
  exact pairwise_filter_decomposition _ (fun x y hr hy => minAuthor_keyLe_mono x y hr hy) _ hs
